import Mathlib

/-!
Verification of the splitting engine of `src/pdf_splitter.py` (class
`PDFSplitterApp`).  The Python functions `validate_pdf` and `split_pdf` are
shallowly embedded below: pure computations (the segment plan of the loop
`for i in range(0, total_pages, pages_per_split)`, the divisor suggestions,
the output file names) become Lean functions, and the effectful control flow
of `split_pdf` becomes a deterministic function from an environment (the
results of the fallible collaborator calls and of the user confirmations) to
a list of the side-effect events the code performs plus a terminal result.
-/

namespace PDFSplitter

/-- Fuel-driven worker for `rangeStep`; structural recursion keeps it kernel
computable. -/
def rangeStepAux (step : Nat) : Nat → Nat → Nat → List Nat
  | _, _, 0 => []
  | start, stop, fuel + 1 =>
    if start < stop then start :: rangeStepAux step (start + step) stop fuel
    else []

/-- Embedding of Python `range(start, stop, step)` for the positive steps the
code uses (`pages_per_split` is validated `> 0` before the loop runs); the
fuel `stop - start` covers every iteration when `step ≥ 1`. -/
def rangeStep (start stop step : Nat) : List Nat :=
  rangeStepAux step start stop (stop - start)

/-- The code computes `num_splits = (total_pages + pages_per_split - 1) // pages_per_split`
(line 342 of the source). -/
def num_splits (total pps : Nat) : Nat := (total + pps - 1) / pps

/-- One planned segment: the inclusive 0-based page range `insert_pdf` copies
(`from_page = firstPage`, `to_page = lastPage`). -/
structure Segment where
  firstPage : Nat
  lastPage : Nat
deriving DecidableEq, Repr

/-- Number of pages a segment holds (`end_page - i` in the source, with
`lastPage = end_page - 1`). -/
def Segment.pages (s : Segment) : Nat := s.lastPage + 1 - s.firstPage

/-- Predicate: segment `s` covers page `p`. -/
def Segment.covers (s : Segment) (p : Nat) : Prop :=
  s.firstPage ≤ p ∧ p ≤ s.lastPage

instance (s : Segment) (p : Nat) : Decidable (s.covers p) := by
  unfold Segment.covers; infer_instance

/-- The split plan implicit in the loop of `split_pdf` (lines 346-352): for
each loop index `i` in `range(0, total_pages, pages_per_split)` the segment
of pages `i .. min(i + pages_per_split, total_pages) - 1`. -/
def planSegments (total pps : Nat) : List Segment :=
  (rangeStep 0 total pps).map
    (fun i => { firstPage := i, lastPage := min (i + pps) total - 1 })

/-- With enough fuel, `rangeStepAux` is the arithmetic progression
`a, a+step, ...` of length `⌈(b-a)/step⌉`. -/
theorem rangeStepAux_eq_map (step : Nat) (hstep : 0 < step) :
    ∀ fuel a b, b - a ≤ fuel →
      rangeStepAux step a b fuel =
        (List.range ((b - a + step - 1) / step)).map (fun k => a + k * step) := by
  intro fuel
  induction fuel with
  | zero =>
      intro a b hab
      have h2 : (b - a + step - 1) / step = 0 := Nat.div_eq_of_lt (by omega)
      simp [rangeStepAux, h2]
  | succ fuel ih =>
      intro a b hab
      simp only [rangeStepAux]
      by_cases hlt : a < b
      · rw [if_pos hlt]
        rw [ih (a + step) b (by omega)]
        have hdiv : (b - a + step - 1) / step
            = (b - (a + step) + step - 1) / step + 1 := by
          by_cases hge : step ≤ b - a
          · have e1 : b - a + step - 1 = (b - a - 1) + step := by omega
            have e2 : b - (a + step) + step - 1 = b - a - 1 := by omega
            rw [e1, e2, Nat.add_div_right _ hstep]
          · have e2 : b - (a + step) + step - 1 = step - 1 := by omega
            have h2 : (step - 1) / step = 0 := Nat.div_eq_of_lt (by omega)
            have h3 : (b - a + step - 1) / step = 1 := by
              apply Nat.div_eq_of_lt_le (by omega) (by omega)
            rw [e2, h2, h3]
        rw [hdiv, List.range_succ_eq_map, List.map_cons, List.map_map]
        have ha : a + 0 * step = a := by simp
        rw [ha]
        congr 1
        apply List.map_congr_left
        intro k _
        simp only [Function.comp]
        rw [Nat.succ_mul]
        omega
      · rw [if_neg hlt]
        have h2 : (b - a + step - 1) / step = 0 := Nat.div_eq_of_lt (by omega)
        simp [h2]

/-- As a list, `rangeStep` is the arithmetic progression `a, a+step, ...` of length
`⌈(b-a)/step⌉`. -/
theorem rangeStep_eq_map (step : Nat) (hstep : 0 < step) (a b : Nat) :
    rangeStep a b step =
      (List.range ((b - a + step - 1) / step)).map (fun k => a + k * step) :=
  rangeStepAux_eq_map step hstep (b - a) a b (Nat.le_refl _)

/-- Specialisation to the loop of `split_pdf`: the loop indices are
`0, pps, 2*pps, ...`, one per planned segment. -/
theorem rangeStep_zero (total pps : Nat) (h : 0 < pps) :
    rangeStep 0 total pps =
      (List.range (num_splits total pps)).map (fun k => k * pps) := by
  rw [rangeStep_eq_map pps h 0 total]
  simp [num_splits]

/-- The ceiling divisor bound: `num_splits * pps` reaches `total`. -/
theorem total_le_numSplits_mul (total pps : Nat) (h : 0 < pps) :
    total ≤ num_splits total pps * pps := by
  unfold num_splits
  have hdm := Nat.div_add_mod (total + pps - 1) pps
  have hr : (total + pps - 1) % pps < pps := Nat.mod_lt _ h
  have hc : (total + pps - 1) / pps * pps = pps * ((total + pps - 1) / pps) :=
    Nat.mul_comm _ _
  omega

/-- Plan length is the code's `num_splits`. -/
theorem planSegments_length (total pps : Nat) (h : 0 < pps) :
    (planSegments total pps).length = num_splits total pps := by
  simp [planSegments, rangeStep_zero total pps h]

/-- Segment `k` of the plan spans `[k*pps, min((k+1)*pps, total) - 1]`. -/
theorem planSegments_get (total pps : Nat) (h : 0 < pps) (k : Nat)
    (hk : k < (planSegments total pps).length) :
    (planSegments total pps).get ⟨k, hk⟩ =
      { firstPage := k * pps, lastPage := min ((k + 1) * pps) total - 1 } := by
  have hrs := rangeStep_zero total pps h
  simp only [planSegments, hrs, List.get_eq_getElem, List.getElem_map,
    List.getElem_range]
  have hmul : (k + 1) * pps = k * pps + pps := by ring
  rw [hmul]

/-- Every page below `total` lies in exactly one planned segment; pages at or
above `total` lie in none. -/
theorem planSegments_countP (total pps : Nat) (htotal : 1 ≤ total)
    (hpps : 1 ≤ pps) (p : Nat) :
    (planSegments total pps).countP (fun s => decide (s.covers p)) =
      if p < total then 1 else 0 := by
  have h0 : 0 < pps := hpps
  rw [planSegments, rangeStep_zero total pps h0, List.countP_map,
    List.countP_map]
  by_cases hp : p < total
  · rw [if_pos hp]
    have hk0 : p / pps < num_splits total pps := by
      by_contra hcon
      push_neg at hcon
      have h3 : num_splits total pps * pps ≤ p / pps * pps :=
        Nat.mul_le_mul_right _ hcon
      have h1 : p / pps * pps ≤ p := Nat.div_mul_le_self p pps
      have h2 := total_le_numSplits_mul total pps h0
      omega
    have hcongr : ∀ k ∈ List.range (num_splits total pps),
        (((fun s => decide (s.covers p)) ∘
          (fun i : Nat => Segment.mk i (min (i + pps) total - 1))) ∘
          (fun k : Nat => k * pps)) k ↔ (k == p / pps) = true := by
      intro k _
      simp only [Function.comp_apply, decide_eq_true_eq, beq_iff_eq,
        Segment.covers]
      constructor
      · rintro ⟨h1, h2⟩
        have hmul : (k + 1) * pps = k * pps + pps := by ring
        exact (Nat.div_eq_of_lt_le h1 (by omega)).symm
      · rintro rfl
        have h1 : p / pps * pps ≤ p := Nat.div_mul_le_self p pps
        have hdm := Nat.div_add_mod p pps
        have hmod : p % pps < pps := Nat.mod_lt _ h0
        have hcomm : p / pps * pps = pps * (p / pps) := Nat.mul_comm _ _
        exact ⟨h1, by omega⟩
    rw [List.countP_congr hcongr]
    have : List.countP (fun k => k == p / pps)
        (List.range (num_splits total pps)) =
        (List.range (num_splits total pps)).count (p / pps) := rfl
    rw [this]
    exact List.count_eq_one_of_mem (List.nodup_range _)
      (List.mem_range.mpr hk0)
  · rw [if_neg hp]
    rw [List.countP_eq_zero]
    intro k _
    simp only [Function.comp_apply, decide_eq_true_eq, Segment.covers, not_and,
      not_le]
    intro _
    omega

/-- C1: for every `pageCount ≥ 1` and `pagesPerSegment ≥ 1` the computed
split plan has exactly `⌈pageCount / pagesPerSegment⌉` segments, segment `k`
(0-based) covers pages `[k*pps, min((k+1)*pps, pageCount) - 1]`, and each
page of `[0, pageCount-1]` is covered by exactly one segment while no
segment covers any other page: the segments are contiguous, non-overlapping,
and their union is exactly `[0, pageCount-1]`. -/
theorem C1_split_plan_partition (total pps : Nat) (htotal : 1 ≤ total)
    (hpps : 1 ≤ pps) :
    (planSegments total pps).length = total ⌈/⌉ pps ∧
    (∀ k (hk : k < (planSegments total pps).length),
        (planSegments total pps).get ⟨k, hk⟩ =
          { firstPage := k * pps, lastPage := min ((k + 1) * pps) total - 1 }) ∧
    (∀ p : Nat,
        (planSegments total pps).countP (fun s => decide (s.covers p)) =
          if p < total then 1 else 0) := by
  refine ⟨?_, fun k hk => planSegments_get total pps hpps k hk,
    fun p => planSegments_countP total pps htotal hpps p⟩
  rw [Nat.ceilDiv_eq_add_pred_div]
  exact planSegments_length total pps hpps

/-- Witness for C1 at the spec's own scenario `pageCount = 10`,
`pagesPerSegment = 3`. -/
theorem C1_split_plan_partition_witness :
    (planSegments 10 3).length = 10 ⌈/⌉ 3 ∧
    (planSegments 10 3).countP (fun s => decide (s.covers 9)) =
      if 9 < 10 then 1 else 0 :=
  ⟨(C1_split_plan_partition 10 3 (by decide) (by decide)).1,
   (C1_split_plan_partition 10 3 (by decide) (by decide)).2.2 9⟩

/-- The evenness test of line 306: `total_pages % pages_per_split != 0`
negated, i.e. the split is even iff `total % pps == 0`. -/
def evenlyDivisible (total pps : Nat) : Bool := total % pps == 0

/-- The code computes `remainder = total_pages % pages_per_split` (line 307). -/
def remainderPages (total pps : Nat) : Nat := total % pps

/-- When `total % pps ≠ 0`, `num_splits` is one more than the floor
quotient. -/
theorem numSplits_of_not_dvd (total pps : Nat) (h0 : 0 < pps)
    (hne : total % pps ≠ 0) :
    num_splits total pps = total / pps + 1 := by
  have hdm := Nat.div_add_mod total pps
  have hmod : total % pps < pps := Nat.mod_lt _ h0
  have h1 : total + pps - 1 = pps * (total / pps + 1) + (total % pps - 1) := by
    have : pps * (total / pps + 1) = pps * (total / pps) + pps := by ring
    omega
  unfold num_splits
  rw [h1, Nat.mul_add_div h0]
  have : (total % pps - 1) / pps = 0 := Nat.div_eq_of_lt (by omega)
  omega

/-- C6: `evenlyDivisible` is true exactly when `pageCount % pagesPerSegment
= 0`; when it is false the remainder equals `pageCount % pagesPerSegment`,
which is also the number of pages of the last planned segment. -/
theorem C6_evenly_divisible (total pps : Nat) (htotal : 1 ≤ total)
    (hpps : 1 ≤ pps) :
    (evenlyDivisible total pps = true ↔ total % pps = 0) ∧
    (evenlyDivisible total pps = false →
      remainderPages total pps = total % pps ∧
      ∃ s, (planSegments total pps).getLast? = some s ∧
        s.pages = total % pps) := by
  have h0 : 0 < pps := hpps
  constructor
  · simp [evenlyDivisible]
  · intro hfalse
    have hne : total % pps ≠ 0 := by
      simpa [evenlyDivisible] using hfalse
    refine ⟨rfl, ?_⟩
    have hlen : (planSegments total pps).length = num_splits total pps :=
      planSegments_length total pps hpps
    have hm1 : 1 ≤ num_splits total pps := by
      unfold num_splits
      exact (Nat.one_le_div_iff h0).mpr (by omega)
    have hidx : (planSegments total pps).length - 1 <
        (planSegments total pps).length := by
      omega
    refine ⟨(planSegments total pps).get
      ⟨(planSegments total pps).length - 1, hidx⟩, ?_, ?_⟩
    · rw [List.getLast?_eq_getElem?, List.getElem?_eq_getElem hidx,
        List.get_eq_getElem]
    · rw [planSegments_get total pps h0 ((planSegments total pps).length - 1)
        hidx]
      have hsucc : (planSegments total pps).length - 1 + 1 =
          num_splits total pps := by omega
      have htot := total_le_numSplits_mul total pps h0
      have hq := numSplits_of_not_dvd total pps h0 hne
      have hdm := Nat.div_add_mod total pps
      have hmod : total % pps < pps := Nat.mod_lt _ h0
      have hlast : ((planSegments total pps).length - 1) * pps =
          pps * (total / pps) := by
        rw [hlen, hq]
        simp [Nat.mul_comm]
      simp only [Segment.pages, hsucc]
      have hmin : min (num_splits total pps * pps) total = total :=
        Nat.min_eq_right htot
      rw [hmin, hlast]
      omega

/-- Witness for C6 at `pageCount = 10`, `pagesPerSegment = 3`: uneven,
remainder 1, and the last planned segment has exactly 1 page. -/
theorem C6_evenly_divisible_witness :
    evenlyDivisible 10 3 = false ∧ remainderPages 10 3 = 10 % 3 :=
  ⟨by decide,
   ((C6_evenly_divisible 10 3 (by decide) (by decide)).2 (by decide)).1⟩

/-- The divisor suggestions of lines 313-319: scan
`range(1, min(total_pages + 1, 21))` in increasing order, keep each `i` with
`total_pages % i == 0`, then keep only the first five
(`suggestions[:5]`). -/
def suggestions (total : Nat) : List Nat :=
  ((List.range' 1 (min (total + 1) 21 - 1)).filter
    (fun i => total % i == 0)).take 5

/-- Modelled from the spec's wording, for comparison: candidates
`1..min(pageCount, 20)` in increasing order, keep the divisors of
`pageCount`, truncate to the first 5 matches. -/
def suggestedSegmentSizesSpec (pageCount : Nat) : List Nat :=
  ((List.range' 1 (min pageCount 20)).filter
    (fun d => pageCount % d == 0)).take 5

/-- C5: every suggested size divides `pageCount` and lies in
`[1, min(pageCount, 20)]`, the list is strictly increasing, has at most 5
entries, and equals the first five divisors found by the spec's scan. -/
theorem C5_suggested_sizes (total pps : Nat) (htotal : 1 ≤ total)
    (hne : total % pps ≠ 0) :
    (∀ d ∈ suggestions total, total % d = 0 ∧ 1 ≤ d ∧ d ≤ min total 20) ∧
    (suggestions total).Pairwise (· < ·) ∧
    (suggestions total).length ≤ 5 ∧
    suggestions total = suggestedSegmentSizesSpec total := by
  have hmin : min (total + 1) 21 - 1 = min total 20 := by omega
  have heq : suggestions total = suggestedSegmentSizesSpec total := by
    unfold suggestions suggestedSegmentSizesSpec
    rw [hmin]
  refine ⟨?_, ?_, ?_, heq⟩
  · intro d hd
    have hd1 : d ∈ (List.range' 1 (min (total + 1) 21 - 1)).filter
        (fun i => total % i == 0) := List.mem_of_mem_take hd
    rw [List.mem_filter] at hd1
    obtain ⟨hmem, hdvd⟩ := hd1
    rw [List.mem_range'_1] at hmem
    refine ⟨by simpa using hdvd, hmem.1, ?_⟩
    omega
  · apply List.Pairwise.sublist (List.take_sublist 5 _)
    apply List.Pairwise.filter
    exact List.pairwise_lt_range' 1 _ 1 (by simp)
  · exact List.length_take_le 5 _

/-- Witness for C5 at `pageCount = 10` (with requested size 3, uneven):
`5` is suggested, divides 10 and is in range, and the scan agrees with the
spec's scan. -/
theorem C5_suggested_sizes_witness :
    (10 % 5 = 0 ∧ 1 ≤ 5 ∧ 5 ≤ min 10 20) ∧
    suggestions 10 = suggestedSegmentSizesSpec 10 :=
  ⟨(C5_suggested_sizes 10 3 (by decide) (by decide)).1 5 (by decide),
   (C5_suggested_sizes 10 3 (by decide) (by decide)).2.2.2⟩

/-- Decimal digit character `0'..'9'` for digit `d`. -/
def digitChar (d : Nat) : Char := Char.ofNat (48 + d)

/-- Decimal rendering of a nonnegative `int` inside the f-strings of lines
329 and 355: most significant digit first, `"0"` for zero. -/
def natToDecimal (n : Nat) : String :=
  if n = 0 then "0"
  else String.mk (((Nat.digits 10 n).map digitChar).reverse)

/-- Decimal decoding, a left inverse of `natToDecimal`. -/
def decodeDecimal (s : String) : Nat :=
  Nat.ofDigits 10 ((s.data.map (fun c => c.toNat - 48)).reverse)

theorem digitChar_toNat {d : Nat} (h : d < 10) :
    (digitChar d).toNat - 48 = d := by
  interval_cases d <;> rfl

theorem decode_natToDecimal (n : Nat) : decodeDecimal (natToDecimal n) = n := by
  by_cases h0 : n = 0
  · subst h0; decide
  · unfold natToDecimal
    rw [if_neg h0]
    unfold decodeDecimal
    show Nat.ofDigits 10
      (((((Nat.digits 10 n).map digitChar).reverse).map
        (fun c => c.toNat - 48)).reverse) = n
    rw [List.map_reverse, List.reverse_reverse, List.map_map]
    have hmap : (Nat.digits 10 n).map
        ((fun c : Char => c.toNat - 48) ∘ digitChar) =
        (Nat.digits 10 n).map (fun d => d) := by
      apply List.map_congr_left
      intro d hd
      simp only [Function.comp_apply]
      exact digitChar_toNat (Nat.digits_lt_base (by norm_num) hd)
    rw [hmap, List.map_id']
    exact Nat.ofDigits_digits 10 n

theorem natToDecimal_injective : Function.Injective natToDecimal :=
  Function.LeftInverse.injective decode_natToDecimal

/-- The output name of line 355, rendered from the f-string
`{input_basename}_{i//pages_per_split + 1}.pdf`, taking
the already-computed 1-based segment index. -/
def outputFileName (base : String) (idx : Nat) : String :=
  base ++ "_" ++ natToDecimal idx ++ ".pdf"

/-- The overwrite probe of line 329, the f-string `{input_basename}_1.pdf`. -/
def firstOutput (base : String) : String := base ++ "_1.pdf"

/-- C9: the output name is the deterministic function
`{baseName}_{index}.pdf` of base name and 1-based index, injective in the
index (so the segments of one plan, numbered `1..N`, never collide), the
overwrite probe's name equals the executor's name for the first segment,
and the names produced by the executor loop are pairwise distinct. -/
theorem C9_output_names (base : String) (total pps : Nat) (htotal : 1 ≤ total)
    (hpps : 1 ≤ pps) :
    (∀ j k : Nat, outputFileName base j = outputFileName base k → j = k) ∧
    firstOutput base = outputFileName base 1 ∧
    ((rangeStep 0 total pps).map
      (fun i => outputFileName base (i / pps + 1))).Nodup := by
  have hinj : ∀ j k : Nat,
      outputFileName base j = outputFileName base k → j = k := by
    intro j k h
    apply natToDecimal_injective
    apply String.ext
    have hd := congrArg String.data h
    simp only [outputFileName, String.data_append] at hd
    exact List.append_cancel_left (List.append_cancel_right hd)
  have h2 : firstOutput base = outputFileName base 1 := by
    have hone : natToDecimal 1 = "1" := by
      unfold natToDecimal
      rw [if_neg one_ne_zero,
        Nat.digits_def' (by norm_num : (1 : Nat) < 10) Nat.one_pos]
      norm_num
      decide
    rw [outputFileName, hone, String.append_assoc, String.append_assoc]
    have hlit : ("_" ++ ("1" ++ ".pdf") : String) = "_1.pdf" := by decide
    rw [hlit]
    rfl
  refine ⟨hinj, h2, ?_⟩
  rw [rangeStep_zero total pps hpps, List.map_map]
  have hcongr : ∀ k ∈ List.range (num_splits total pps),
      ((fun i => outputFileName base (i / pps + 1)) ∘ (fun k => k * pps)) k
        = outputFileName base (k + 1) := by
    intro k _
    simp only [Function.comp_apply]
    rw [Nat.mul_div_cancel k hpps]
  rw [List.map_congr_left hcongr]
  apply List.Nodup.map
  · intro a b hab
    have := hinj (a + 1) (b + 1) hab
    omega
  · exact List.nodup_range _

/-- Witness for C9 with base name `"doc"` and the `10`-page, `3`-per-segment
plan. -/
theorem C9_output_names_witness :
    firstOutput "doc" = outputFileName "doc" 1 ∧
    ((rangeStep 0 10 3).map
      (fun i => outputFileName "doc" (i / 3 + 1))).Nodup :=
  ⟨(C9_output_names "doc" 10 3 (by decide) (by decide)).2.1,
   (C9_output_names "doc" 10 3 (by decide) (by decide)).2.2⟩

/-- Embedding of Python `str.lower()` over the character sequence. -/
def strToLower (s : String) : String := String.mk (s.data.map Char.toLower)

/-- Embedding of Python `str.endswith(post)` over the character sequence. -/
def strEndsWith (s post : String) : Bool := post.data.isSuffixOf s.data

/-- The handle `fitz.open` returns; the only attribute `validate_pdf` reads
is `is_pdf`. -/
structure PdfDoc where
  is_pdf : Bool
deriving DecidableEq, Repr

/-- Results of the two fallible collaborator calls inside `validate_pdf`:
`os.path.getsize(file_path)` and `fitz.open(file_path)`.  `.error msg` is a
raised exception carrying `str(e) = msg`. -/
structure ValidateEnv where
  getSize : Except String Nat
  openDoc : Except String PdfDoc

/-- Body of `validate_pdf` (lines 256-270) without the surrounding
`try/except`: checks in order file size, extension, and document structure;
a raised exception propagates as `.error`. -/
def validate_pdf_body (path : String) (env : ValidateEnv) :
    Except String (Bool × String) :=
  match env.getSize with
  | .error e => .error e
  | .ok size =>
    if size > 100 * 1024 * 1024 then
      .ok (false, "File is too large (max 100MB)")
    else if ! strEndsWith (strToLower path) ".pdf" then
      .ok (false, "Not a PDF file")
    else
      match env.openDoc with
      | .error e => .error e
      | .ok doc =>
        if ! doc.is_pdf then
          .ok (false, "Invalid PDF format")
        else
          .ok (true, "Valid PDF")

/-- The full `validate_pdf` (lines 253-273): the `try/except Exception` wrapper turns
any raised exception `e` into the return value `(False, str(e))`. -/
def validate_pdf (path : String) (env : ValidateEnv) : Bool × String :=
  match validate_pdf_body path env with
  | .ok r => r
  | .error e => (false, e)

/-- Case analysis of `validate_pdf` once `os.path.getsize` succeeds; shared
support for the claims about the validator. -/
theorem validate_pdf_cases (path : String) (env : ValidateEnv) (s : Nat)
    (hs : env.getSize = .ok s) :
    (100 * 1024 * 1024 < s →
      validate_pdf path env = (false, "File is too large (max 100MB)")) ∧
    (s ≤ 100 * 1024 * 1024 →
      strEndsWith (strToLower path) ".pdf" = false →
      validate_pdf path env = (false, "Not a PDF file")) ∧
    (s ≤ 100 * 1024 * 1024 →
      strEndsWith (strToLower path) ".pdf" = true →
      ∀ msg, env.openDoc = .error msg →
        validate_pdf path env = (false, msg)) ∧
    (s ≤ 100 * 1024 * 1024 →
      strEndsWith (strToLower path) ".pdf" = true →
      ∀ doc, env.openDoc = .ok doc → doc.is_pdf = false →
        validate_pdf path env = (false, "Invalid PDF format")) ∧
    (s ≤ 100 * 1024 * 1024 →
      strEndsWith (strToLower path) ".pdf" = true →
      ∀ doc, env.openDoc = .ok doc → doc.is_pdf = true →
        validate_pdf path env = (true, "Valid PDF")) := by
  refine ⟨?_, ?_, ?_, ?_, ?_⟩
  · intro h1
    simp [validate_pdf, validate_pdf_body, hs, h1]
  · intro h1 h2
    have h1' : ¬ (100 * 1024 * 1024 < s) := by omega
    simp [validate_pdf, validate_pdf_body, hs, h1', h2]
  · intro h1 h2 msg hmsg
    have h1' : ¬ (100 * 1024 * 1024 < s) := by omega
    simp [validate_pdf, validate_pdf_body, hs, h1', h2, hmsg]
  · intro h1 h2 doc hdoc hpdf
    have h1' : ¬ (100 * 1024 * 1024 < s) := by omega
    simp [validate_pdf, validate_pdf_body, hs, h1', h2, hdoc, hpdf]
  · intro h1 h2 doc hdoc hpdf
    have h1' : ¬ (100 * 1024 * 1024 < s) := by omega
    simp [validate_pdf, validate_pdf_body, hs, h1', h2, hdoc, hpdf]

/-- C8: validation checks run in order and short-circuit: oversize first
(a file of exactly 100 MiB passes the size check), then the
case-insensitive `.pdf` extension, then whether the document service opens
the file as a structurally valid PDF; otherwise validation succeeds. -/
theorem C8_validation_order (path : String) (env : ValidateEnv) (s : Nat)
    (hs : env.getSize = .ok s) :
    (100 * 1024 * 1024 < s →
      validate_pdf path env = (false, "File is too large (max 100MB)")) ∧
    (s ≤ 100 * 1024 * 1024 →
      strEndsWith (strToLower path) ".pdf" = false →
      validate_pdf path env = (false, "Not a PDF file")) ∧
    (s ≤ 100 * 1024 * 1024 →
      strEndsWith (strToLower path) ".pdf" = true →
      ∀ msg, env.openDoc = .error msg →
        validate_pdf path env = (false, msg)) ∧
    (s ≤ 100 * 1024 * 1024 →
      strEndsWith (strToLower path) ".pdf" = true →
      ∀ doc, env.openDoc = .ok doc → doc.is_pdf = false →
        validate_pdf path env = (false, "Invalid PDF format")) ∧
    (s ≤ 100 * 1024 * 1024 →
      strEndsWith (strToLower path) ".pdf" = true →
      ∀ doc, env.openDoc = .ok doc → doc.is_pdf = true →
        validate_pdf path env = (true, "Valid PDF")) :=
  validate_pdf_cases path env s hs

/-- Witness for C8: a file of exactly 100 MiB with an upper-case extension
and a structurally valid document passes every check. -/
theorem C8_validation_order_witness :
    validate_pdf "a.PDF"
      { getSize := .ok (100 * 1024 * 1024), openDoc := .ok { is_pdf := true } }
      = (true, "Valid PDF") :=
  (C8_validation_order "a.PDF"
      { getSize := .ok (100 * 1024 * 1024), openDoc := .ok { is_pdf := true } }
      (100 * 1024 * 1024) rfl).2.2.2.2
    (by omega) (by decide) { is_pdf := true } rfl rfl

/-- C10: `validate_pdf` is total at its interface: it always returns a
`(verdict, message)` pair, and any exception raised inside — a missing
file (`os.path.getsize` fails) or an unopenable document (`fitz.open`
fails) — is caught and returned as `(False, str(e))`. -/
theorem C10_validate_total (path : String) (env : ValidateEnv) :
    ((∃ msg, validate_pdf path env = (false, msg)) ∨
      validate_pdf path env = (true, "Valid PDF")) ∧
    (∀ msg, env.getSize = .error msg → validate_pdf path env = (false, msg)) ∧
    (∀ msg s, env.getSize = .ok s → s ≤ 100 * 1024 * 1024 →
      strEndsWith (strToLower path) ".pdf" = true →
      env.openDoc = .error msg → validate_pdf path env = (false, msg)) := by
  refine ⟨?_, ?_, ?_⟩
  · rcases hgs : env.getSize with msg | s
    · left
      exact ⟨msg, by simp [validate_pdf, validate_pdf_body, hgs]⟩
    · by_cases hbig : 100 * 1024 * 1024 < s
      · left
        exact ⟨_, ((validate_pdf_cases path env s hgs).1 hbig)⟩
      · by_cases hext : strEndsWith (strToLower path) ".pdf"
        · rcases hod : env.openDoc with msg | doc
          · left
            refine ⟨msg, ?_⟩
            exact (validate_pdf_cases path env s hgs).2.2.1 (by omega) hext
              msg hod
          · by_cases hpdf : doc.is_pdf
            · right
              exact (validate_pdf_cases path env s hgs).2.2.2.2 (by omega)
                hext doc hod hpdf
            · left
              refine ⟨"Invalid PDF format", ?_⟩
              exact (validate_pdf_cases path env s hgs).2.2.2.1 (by omega)
                hext doc hod (by simpa using hpdf)
        · left
          refine ⟨"Not a PDF file", ?_⟩
          exact (validate_pdf_cases path env s hgs).2.1 (by omega)
            (by simpa using hext)
  · intro msg hmsg
    simp [validate_pdf, validate_pdf_body, hmsg]
  · intro msg s hgs hsize hext hod
    exact (validate_pdf_cases path env s hgs).2.2.1 hsize hext msg hod

/-- Witness for C10: a nonexistent input path — `os.path.getsize` raises —
yields verdict `False` with the exception's message. -/
theorem C10_validate_total_witness :
    validate_pdf "missing.pdf"
      { getSize := .error "No such file or directory",
        openDoc := .error "No such file or directory" }
      = (false, "No such file or directory") :=
  (C10_validate_total "missing.pdf"
      { getSize := .error "No such file or directory",
        openDoc := .error "No such file or directory" }).2.1
    "No such file or directory" rfl

/-- Observable side effects of one `split_pdf` run: the lifecycle of the
source document handle, the two confirmation dialogs, and each output file
write (`new_doc.save`, line 359). -/
inductive Event where
  | openSource
  | closeSource
  | gateUneven (accepted : Bool)
  | gateOverwrite (accepted : Bool)
  | writeSegment (idx : Nat) (name : String)
deriving DecidableEq, Repr

/-- Terminal outcome reported by one `split_pdf` run. -/
inductive SplitResult where
  | errorBadPagesValue
  | errorNonPositivePages
  | errorMissingPaths
  | errorInvalidPdf (msg : String)
  | abortedUneven
  | abortedOverwrite
  | errorException (msg : String)
  | success
deriving DecidableEq, Repr

/-- Environment of one `split_pdf` run: the parsed user inputs, the
collaborator results and the user's two confirmation answers.
`failAt = some k` means the extraction or save of the 1-based segment `k`
raises, with message `failMsg`. -/
structure SplitEnv where
  pagesRaw : Option Int
  inputPathSet : Bool
  outputDirSet : Bool
  validOk : Bool
  validMsg : String
  openFails : Bool
  openMsg : String
  pageCount : Nat
  confirmUneven : Bool
  firstOutputExists : Bool
  confirmOverwrite : Bool
  failAt : Option Nat
  failMsg : String

/-- The writing loop of lines 346-364: one `writeSegment` event per loop
index `i`, naming the file `f'{base}_{i//pps + 1}.pdf'`, unless the segment
whose 1-based index matches `failAt` raises first; the Boolean reports
whether an exception aborted the loop. -/
def runSegments (base : String) (pps : Nat) (failAt : Option Nat) :
    List Nat → List Event × Bool
  | [] => ([], false)
  | i :: rest =>
    if failAt = some (i / pps + 1) then ([], true)
    else
      let next := runSegments base pps failAt rest
      (Event.writeSegment (i / pps + 1)
        (outputFileName base (i / pps + 1)) :: next.1, next.2)

/-- The whole of `split_pdf` (lines 275-373) as a function of its environment, returning
the event trace of its side effects and the reported result.  Control flow
follows the source: parse and bounds-check `pages_per_split`, check the two
paths, run `validate_pdf`, open the source, show the uneven-split warning
when `total_pages % pages_per_split != 0`, probe the first output name and
show the overwrite warning when it exists, then run the loop.  The `except`
handler of lines 371-373 reports the exception and returns without closing
the source document. -/
def split_pdf (env : SplitEnv) (base : String) : List Event × SplitResult :=
  match env.pagesRaw with
  | none => ([], .errorBadPagesValue)
  | some pagesInt =>
    if pagesInt ≤ 0 then ([], .errorNonPositivePages)
    else if !env.inputPathSet || !env.outputDirSet then
      ([], .errorMissingPaths)
    else if !env.validOk then ([], .errorInvalidPdf env.validMsg)
    else if env.openFails then ([], .errorException env.openMsg)
    else
      let pps := pagesInt.toNat
      let total := env.pageCount
      if total % pps ≠ 0 ∧ env.confirmUneven = false then
        ([.openSource, .gateUneven false, .closeSource], .abortedUneven)
      else
        let evs1 := [Event.openSource] ++
          (if total % pps ≠ 0 then [Event.gateUneven true] else [])
        if env.firstOutputExists ∧ env.confirmOverwrite = false then
          (evs1 ++ [.gateOverwrite false, .closeSource], .abortedOverwrite)
        else
          let evs2 := evs1 ++
            (if env.firstOutputExists then [Event.gateOverwrite true] else [])
          let loop := runSegments base pps env.failAt (rangeStep 0 total pps)
          if loop.2 then
            (evs2 ++ loop.1, .errorException env.failMsg)
          else
            (evs2 ++ loop.1 ++ [Event.closeSource], .success)

/-- Output-writing events. -/
def Event.isWrite : Event → Bool
  | .writeSegment _ _ => true
  | _ => false

/-- Confirmation-gate events. -/
def Event.isGate : Event → Bool
  | .gateUneven _ => true
  | .gateOverwrite _ => true
  | _ => false

/-- The write events of a trace. -/
def writesOf (l : List Event) : List Event := l.filter Event.isWrite

/-- Run on the loop indices `j, j+1, ...` (times `pps`) with a failure
planted at segment `k`, the loop emits exactly the writes of segments
`j+1 .. k-1` and then aborts. -/
theorem runSegments_fail (base : String) (pps k : Nat) (hp : 0 < pps) :
    ∀ n j, j + 1 ≤ k → k ≤ j + n →
      runSegments base pps (some k)
          ((List.range' j n).map (fun t => t * pps)) =
        ((List.range' (j + 1) (k - 1 - j)).map
          (fun idx => Event.writeSegment idx (outputFileName base idx)),
         true) := by
  intro n
  induction n with
  | zero =>
      intro j h1 h2
      exact absurd h2 (by omega)
  | succ n ih =>
      intro j h1 h2
      rw [List.range'_succ, List.map_cons]
      have hdivq : j * pps / pps = j := Nat.mul_div_cancel j hp
      by_cases hk : k = j + 1
      · subst hk
        have hz : j + 1 - 1 - j = 0 := by omega
        simp [runSegments, hdivq, hz]
      · have hcond : ¬ ((some k : Option Nat) = some (j * pps / pps + 1)) := by
          rw [hdivq]
          simp only [Option.some.injEq]
          omega
        simp only [runSegments, if_neg hcond, hdivq]
        rw [ih (j + 1) (by omega) (by omega)]
        have hsplit : k - 1 - j = (k - 1 - (j + 1)) + 1 := by omega
        rw [hsplit, List.range'_succ, List.map_cons]
        simp [hk]

/-- With no failure planted, the loop on indices `j, j+1, ...` emits one
write per segment and finishes cleanly. -/
theorem runSegments_none (base : String) (pps : Nat) (hp : 0 < pps) :
    ∀ n j,
      runSegments base pps none ((List.range' j n).map (fun t => t * pps)) =
        ((List.range' (j + 1) n).map
          (fun idx => Event.writeSegment idx (outputFileName base idx)),
         false) := by
  intro n
  induction n with
  | zero =>
      intro j
      simp [runSegments]
  | succ n ih =>
      intro j
      rw [List.range'_succ, List.map_cons]
      have hdivq : j * pps / pps = j := Nat.mul_div_cancel j hp
      simp only [runSegments, hdivq, reduceCtorEq, if_false]
      rw [ih (j + 1)]
      rw [List.range'_succ, List.map_cons]

/-- The loop emits no gate events. -/
theorem runSegments_no_gate (base : String) (pps : Nat)
    (failAt : Option Nat) :
    ∀ l, ∀ e ∈ (runSegments base pps failAt l).1, e.isGate = false := by
  intro l
  induction l with
  | nil =>
      intro e he
      simp [runSegments] at he
  | cons i rest ih =>
      intro e he
      by_cases hc : failAt = some (i / pps + 1)
      · simp [runSegments, hc] at he
      · simp only [runSegments, if_neg hc, List.mem_cons] at he
        rcases he with he | he
        · subst he; rfl
        · exact ih e he

/-- Once parsing, path checks, validation and the open succeed and both
confirmation gates pass (or are not shown), control reaches the writing
loop: the trace is a write-free prefix followed by the loop's events, plus
a final close on clean completion only. -/
theorem split_pdf_reaches_loop (env : SplitEnv) (base : String) (pps : Nat)
    (hpages : env.pagesRaw = some (pps : Int)) (hpps : 1 ≤ pps)
    (hin : env.inputPathSet = true) (hout : env.outputDirSet = true)
    (hvalid : env.validOk = true) (hopen : env.openFails = false)
    (hgate1 : env.pageCount % pps = 0 ∨ env.confirmUneven = true)
    (hgate2 : env.firstOutputExists = false ∨ env.confirmOverwrite = true) :
    ∃ pre : List Event,
      (∀ e ∈ pre, e.isWrite = false) ∧
      split_pdf env base =
        (if (runSegments base pps env.failAt
              (rangeStep 0 env.pageCount pps)).2 then
          (pre ++ (runSegments base pps env.failAt
            (rangeStep 0 env.pageCount pps)).1,
           .errorException env.failMsg)
        else
          (pre ++ (runSegments base pps env.failAt
            (rangeStep 0 env.pageCount pps)).1 ++ [Event.closeSource],
           .success)) := by
  have hle : ¬ ((pps : Int) ≤ 0) := by omega
  by_cases hu : env.pageCount % pps = 0
  · by_cases hex : env.firstOutputExists = true
    · have hco : env.confirmOverwrite = true := by
        rcases hgate2 with h | h
        · rw [hex] at h; cases h
        · exact h
      refine ⟨[Event.openSource, Event.gateOverwrite true], by decide, ?_⟩
      simp [split_pdf, hpages, hle, hin, hout, hvalid, hopen, hu, hex, hco]
    · have hex' : env.firstOutputExists = false := by
        simpa using hex
      refine ⟨[Event.openSource], by decide, ?_⟩
      simp [split_pdf, hpages, hle, hin, hout, hvalid, hopen, hu, hex']
  · have hcu : env.confirmUneven = true := by
      rcases hgate1 with h | h
      · exact absurd h hu
      · exact h
    by_cases hex : env.firstOutputExists = true
    · have hco : env.confirmOverwrite = true := by
        rcases hgate2 with h | h
        · rw [hex] at h; cases h
        · exact h
      refine ⟨[Event.openSource, Event.gateUneven true,
        Event.gateOverwrite true], by decide, ?_⟩
      simp [split_pdf, hpages, hle, hin, hout, hvalid, hopen, hu, hcu, hex,
        hco]
    · have hex' : env.firstOutputExists = false := by
        simpa using hex
      refine ⟨[Event.openSource, Event.gateUneven true], by decide, ?_⟩
      simp [split_pdf, hpages, hle, hin, hout, hvalid, hopen, hu, hcu, hex']

/-- C2: if the extraction or save of the 1-based segment `k` of the plan
raises, the run aborts at once: the trace holds exactly the write events of
segments `1..k-1` (in order, and nothing ever removes them — the model has
no deleting event), no segment with index `≥ k` is written, and the
operation reports the exception's message instead of success. -/
theorem C2_stop_on_first_failure (env : SplitEnv) (base : String) (pps : Nat)
    (hpages : env.pagesRaw = some (pps : Int)) (hpps : 1 ≤ pps)
    (hin : env.inputPathSet = true) (hout : env.outputDirSet = true)
    (hvalid : env.validOk = true) (hopen : env.openFails = false)
    (hgate1 : env.pageCount % pps = 0 ∨ env.confirmUneven = true)
    (hgate2 : env.firstOutputExists = false ∨ env.confirmOverwrite = true)
    (k : Nat) (hfail : env.failAt = some k) (hk1 : 1 ≤ k)
    (hk2 : k ≤ num_splits env.pageCount pps) :
    (split_pdf env base).2 = .errorException env.failMsg ∧
    writesOf (split_pdf env base).1 =
      (List.range' 1 (k - 1)).map
        (fun idx => Event.writeSegment idx (outputFileName base idx)) ∧
    (∀ idx name, Event.writeSegment idx name ∈ (split_pdf env base).1 →
      idx < k) := by
  obtain ⟨pre, hpre, heq⟩ := split_pdf_reaches_loop env base pps hpages hpps
    hin hout hvalid hopen hgate1 hgate2
  have hrs : rangeStep 0 env.pageCount pps =
      (List.range' 0 (num_splits env.pageCount pps)).map
        (fun t => t * pps) := by
    rw [rangeStep_zero _ _ hpps, List.range_eq_range']
  have hloop : runSegments base pps env.failAt
      (rangeStep 0 env.pageCount pps) =
      ((List.range' 1 (k - 1)).map
        (fun idx => Event.writeSegment idx (outputFileName base idx)),
       true) := by
    rw [hfail, hrs]
    have h := runSegments_fail base pps k hpps
      (num_splits env.pageCount pps) 0 (by omega) (by omega)
    simpa using h
  rw [hloop] at heq
  simp only [if_true] at heq
  refine ⟨by rw [heq], ?_, ?_⟩
  · rw [heq]
    show writesOf (pre ++ _) = _
    unfold writesOf
    rw [List.filter_append]
    have h1 : pre.filter Event.isWrite = [] := by
      rw [List.filter_eq_nil_iff]
      intro e he
      simp [hpre e he]
    have h2 : ((List.range' 1 (k - 1)).map
        (fun idx => Event.writeSegment idx (outputFileName base idx))).filter
          Event.isWrite =
        (List.range' 1 (k - 1)).map
          (fun idx => Event.writeSegment idx (outputFileName base idx)) := by
      rw [List.filter_eq_self]
      intro e he
      obtain ⟨idx, _, rfl⟩ := List.mem_map.mp he
      rfl
    rw [h1, h2, List.nil_append]
  · intro idx name hmem
    rw [heq] at hmem
    rcases List.mem_append.mp hmem with hmem | hmem
    · have := hpre _ hmem
      simp [Event.isWrite] at this
    · obtain ⟨t, ht, hteq⟩ := List.mem_map.mp hmem
      have : t = idx := by
        injection hteq
      subst this
      rw [List.mem_range'_1] at ht
      omega

/-- Witness environment for C2: a 4-page document split 2 per segment, with
the save of segment 2 raising `"disk full"`. -/
def envC2 : SplitEnv :=
  { pagesRaw := some 2, inputPathSet := true, outputDirSet := true,
    validOk := true, validMsg := "", openFails := false, openMsg := "",
    pageCount := 4, confirmUneven := true, firstOutputExists := false,
    confirmOverwrite := true, failAt := some 2, failMsg := "disk full" }

/-- Witness for C2: segment 1 is written, then the failure of segment 2
aborts the run with the exception reported. -/
theorem C2_stop_on_first_failure_witness :
    (split_pdf envC2 "doc").2 = .errorException "disk full" ∧
    writesOf (split_pdf envC2 "doc").1 =
      (List.range' 1 1).map
        (fun idx => Event.writeSegment idx (outputFileName "doc" idx)) :=
  ⟨(C2_stop_on_first_failure envC2 "doc" 2 rfl (by decide) rfl rfl rfl rfl
      (Or.inl (by decide)) (Or.inl rfl) 2 rfl (by decide) (by decide)).1,
   (C2_stop_on_first_failure envC2 "doc" 2 rfl (by decide) rfl rfl rfl rfl
      (Or.inl (by decide)) (Or.inl rfl) 2 rfl (by decide) (by decide)).2.1⟩

/-- Declining the uneven-split warning closes the source and aborts with no
further events. -/
theorem split_pdf_uneven_decline (env : SplitEnv) (base : String) (pps : Nat)
    (hpages : env.pagesRaw = some (pps : Int)) (hpps : 1 ≤ pps)
    (hin : env.inputPathSet = true) (hout : env.outputDirSet = true)
    (hvalid : env.validOk = true) (hopen : env.openFails = false)
    (hu : env.pageCount % pps ≠ 0) (hcu : env.confirmUneven = false) :
    split_pdf env base =
      ([.openSource, .gateUneven false, .closeSource], .abortedUneven) := by
  have hle : ¬ ((pps : Int) ≤ 0) := by omega
  simp [split_pdf, hpages, hle, hin, hout, hvalid, hopen, hu, hcu]

/-- Declining the overwrite warning closes the source and aborts before any
write. -/
theorem split_pdf_overwrite_decline (env : SplitEnv) (base : String)
    (pps : Nat)
    (hpages : env.pagesRaw = some (pps : Int)) (hpps : 1 ≤ pps)
    (hin : env.inputPathSet = true) (hout : env.outputDirSet = true)
    (hvalid : env.validOk = true) (hopen : env.openFails = false)
    (hgate1 : env.pageCount % pps = 0 ∨ env.confirmUneven = true)
    (hex : env.firstOutputExists = true) (hco : env.confirmOverwrite = false) :
    split_pdf env base =
      ([Event.openSource] ++
        (if env.pageCount % pps ≠ 0 then [Event.gateUneven true] else []) ++
        [.gateOverwrite false, .closeSource], .abortedOverwrite) := by
  have hle : ¬ ((pps : Int) ≤ 0) := by omega
  by_cases hu : env.pageCount % pps = 0
  · simp [split_pdf, hpages, hle, hin, hout, hvalid, hopen, hu, hex, hco]
  · have hcu : env.confirmUneven = true := by
      rcases hgate1 with h | h
      · exact absurd h hu
      · exact h
    simp [split_pdf, hpages, hle, hin, hout, hvalid, hopen, hu, hcu, hex, hco]

/-- In every run of `split_pdf`, the trace splits into a write-free prefix
holding all the gate events followed by a gate-free rest: both confirmation
gates are resolved before any output write occurs. -/
theorem split_pdf_gates_precede (env : SplitEnv) (base : String) :
    ∃ l1 l2, (split_pdf env base).1 = l1 ++ l2 ∧
      (∀ e ∈ l1, e.isWrite = false) ∧ (∀ e ∈ l2, e.isGate = false) := by
  rcases hp : env.pagesRaw with _ | pagesInt
  · exact ⟨[], [], by simp [split_pdf, hp], by simp, by simp⟩
  by_cases h0 : pagesInt ≤ 0
  · exact ⟨[], [], by simp [split_pdf, hp, h0], by simp, by simp⟩
  by_cases hio : (!env.inputPathSet || !env.outputDirSet) = true
  · exact ⟨[], [], by simp [split_pdf, hp, h0, hio], by simp, by simp⟩
  have hio' : env.inputPathSet = true ∧ env.outputDirSet = true := by
    constructor <;> [skip; skip] <;> revert hio <;>
      cases env.inputPathSet <;> cases env.outputDirSet <;> simp
  obtain ⟨hin, hout⟩ := hio'
  by_cases hv : env.validOk = true
  case neg =>
    have hv' : env.validOk = false := by simpa using hv
    exact ⟨[], [], by simp [split_pdf, hp, h0, hin, hout, hv'], by simp,
      by simp⟩
  by_cases ho : env.openFails = true
  · exact ⟨[], [], by simp [split_pdf, hp, h0, hin, hout, hv, ho], by simp,
      by simp⟩
  have ho' : env.openFails = false := by simpa using ho
  have hpages : env.pagesRaw = some ((pagesInt.toNat : Nat) : Int) := by
    rw [hp, Int.toNat_of_nonneg (by omega)]
  have hpps : 1 ≤ pagesInt.toNat := by omega
  by_cases hg1 : env.pageCount % pagesInt.toNat = 0 ∨ env.confirmUneven = true
  · by_cases hg2 : env.firstOutputExists = false ∨
        env.confirmOverwrite = true
    · obtain ⟨pre, hpre, heq⟩ := split_pdf_reaches_loop env base
        pagesInt.toNat hpages hpps hin hout hv ho' hg1 hg2
      by_cases hl2 : (runSegments base pagesInt.toNat env.failAt
          (rangeStep 0 env.pageCount pagesInt.toNat)).2 = true
      · rw [hl2, if_pos rfl] at heq
        refine ⟨pre, (runSegments base pagesInt.toNat env.failAt
          (rangeStep 0 env.pageCount pagesInt.toNat)).1, by rw [heq], hpre,
          ?_⟩
        intro e he
        exact runSegments_no_gate base pagesInt.toNat env.failAt _ e he
      · have hl2' : (runSegments base pagesInt.toNat env.failAt
            (rangeStep 0 env.pageCount pagesInt.toNat)).2 = false := by
          simpa using hl2
        rw [hl2'] at heq
        simp only [Bool.false_eq_true, if_false] at heq
        refine ⟨pre, (runSegments base pagesInt.toNat env.failAt
          (rangeStep 0 env.pageCount pagesInt.toNat)).1 ++
            [Event.closeSource], ?_, hpre, ?_⟩
        · rw [heq, List.append_assoc]
        · intro e he
          rcases List.mem_append.mp he with he | he
          · exact runSegments_no_gate base pagesInt.toNat env.failAt _ e he
          · simp only [List.mem_singleton] at he
            subst he; rfl
    · have hex : env.firstOutputExists = true ∧
          env.confirmOverwrite = false := by
        revert hg2
        cases env.firstOutputExists <;> cases env.confirmOverwrite <;> simp
      have heq := split_pdf_overwrite_decline env base pagesInt.toNat hpages
        hpps hin hout hv ho' hg1 hex.1 hex.2
      by_cases hu : env.pageCount % pagesInt.toNat = 0
      · refine ⟨[Event.openSource, Event.gateOverwrite false,
          Event.closeSource], [], ?_, by decide, by simp⟩
        rw [heq]
        simp [hu]
      · refine ⟨[Event.openSource, Event.gateUneven true,
          Event.gateOverwrite false, Event.closeSource], [], ?_, by decide,
          by simp⟩
        rw [heq]
        simp [hu]
  · have hu : env.pageCount % pagesInt.toNat ≠ 0 ∧
        env.confirmUneven = false := by
      constructor
      · intro hc; exact hg1 (Or.inl hc)
      · revert hg1
        cases env.confirmUneven <;> simp
    have heq := split_pdf_uneven_decline env base pagesInt.toNat hpages hpps
      hin hout hv ho' hu.1 hu.2
    exact ⟨[Event.openSource, Event.gateUneven false, Event.closeSource],
      [], by rw [heq]; simp, by decide, by simp⟩

/-- C7: no output file is written before both confirmation gates have
passed — every trace is a write-free prefix (holding all gate events)
followed by a gate-free rest — and declining either gate aborts the run
with zero output files written. -/
theorem C7_gates_before_writes (env : SplitEnv) (base : String) :
    (∃ l1 l2, (split_pdf env base).1 = l1 ++ l2 ∧
      (∀ e ∈ l1, e.isWrite = false) ∧ (∀ e ∈ l2, e.isGate = false)) ∧
    (∀ pps : Nat, env.pagesRaw = some (pps : Int) → 1 ≤ pps →
      env.inputPathSet = true → env.outputDirSet = true →
      env.validOk = true → env.openFails = false →
      ((env.pageCount % pps ≠ 0 → env.confirmUneven = false →
        (split_pdf env base).2 = .abortedUneven ∧
        writesOf (split_pdf env base).1 = []) ∧
       ((env.pageCount % pps = 0 ∨ env.confirmUneven = true) →
        env.firstOutputExists = true → env.confirmOverwrite = false →
        (split_pdf env base).2 = .abortedOverwrite ∧
        writesOf (split_pdf env base).1 = []))) := by
  refine ⟨split_pdf_gates_precede env base, ?_⟩
  intro pps hpages hpps hin hout hvalid hopen
  constructor
  · intro hu hcu
    have heq := split_pdf_uneven_decline env base pps hpages hpps hin hout
      hvalid hopen hu hcu
    rw [heq]
    exact ⟨rfl, rfl⟩
  · intro hgate1 hex hco
    have heq := split_pdf_overwrite_decline env base pps hpages hpps hin hout
      hvalid hopen hgate1 hex hco
    rw [heq]
    refine ⟨rfl, ?_⟩
    by_cases hu : env.pageCount % pps = 0 <;> simp [hu, writesOf,
      Event.isWrite]

/-- Witness environment for C7: a 10-page document, 3 pages per segment,
with the uneven-split warning declined. -/
def envC7 : SplitEnv :=
  { pagesRaw := some 3, inputPathSet := true, outputDirSet := true,
    validOk := true, validMsg := "", openFails := false, openMsg := "",
    pageCount := 10, confirmUneven := false, firstOutputExists := false,
    confirmOverwrite := true, failAt := none, failMsg := "" }

/-- Witness for C7: declining the uneven-split warning aborts with zero
writes. -/
theorem C7_gates_before_writes_witness :
    (split_pdf envC7 "doc").2 = .abortedUneven ∧
    writesOf (split_pdf envC7 "doc").1 = [] :=
  ((C7_gates_before_writes envC7 "doc").2 3 rfl (by decide) rfl rfl rfl
    rfl).1 (by decide) rfl

/-- C3 counterexample environment: an otherwise fully valid request on a
zero-page document. -/
def envC3 : SplitEnv :=
  { pagesRaw := some 1, inputPathSet := true, outputDirSet := true,
    validOk := true, validMsg := "", openFails := false, openMsg := "",
    pageCount := 0, confirmUneven := true, firstOutputExists := false,
    confirmOverwrite := true, failAt := none, failMsg := "" }

/-- C3 is false as stated: a document with `pageCount = 0` is not rejected
with an invalid-parameter error — the loop body never runs and `split_pdf`
reports success (with zero output files). -/
theorem C3_counterexample :
    envC3.pageCount = 0 ∧
    split_pdf envC3 "doc" = ([.openSource, .closeSource], .success) ∧
    (split_pdf envC3 "doc").2 ≠ .errorNonPositivePages := by decide

/-- C3 (amended): a non-positive `pagesPerSegment` (or an unparsable one)
is rejected immediately, with no plan, no events and no output; but a zero
`pageCount` is not rejected: when the request is otherwise valid and no
overwrite gate intervenes, the operation reports success with an empty
plan — zero segments and zero output files. -/
theorem C3_invalid_parameters (env : SplitEnv) (base : String) :
    (∀ pagesInt : Int, env.pagesRaw = some pagesInt → pagesInt ≤ 0 →
      split_pdf env base = ([], .errorNonPositivePages)) ∧
    (env.pagesRaw = none →
      split_pdf env base = ([], .errorBadPagesValue)) ∧
    (∀ pps : Nat, env.pagesRaw = some (pps : Int) → 1 ≤ pps →
      env.inputPathSet = true → env.outputDirSet = true →
      env.validOk = true → env.openFails = false →
      env.pageCount = 0 → env.firstOutputExists = false →
      split_pdf env base = ([.openSource, .closeSource], .success)) := by
  refine ⟨?_, ?_, ?_⟩
  · intro pagesInt hp h0
    simp [split_pdf, hp, h0]
  · intro hp
    simp [split_pdf, hp]
  · intro pps hp hpps hin hout hv ho hpc hex
    have hle : ¬ ((pps : Int) ≤ 0) := by omega
    have hrs : rangeStep 0 (0 : Nat) pps = [] := rfl
    simp [split_pdf, hp, hle, hin, hout, hv, ho, hpc, hex, hrs, runSegments]

/-- Witness for the amended C3: `pagesPerSegment = -3` is rejected with no
events, and a zero-page request otherwise valid succeeds with no writes. -/
theorem C3_invalid_parameters_witness :
    split_pdf { envC3 with pagesRaw := some (-3) } "doc" =
      ([], .errorNonPositivePages) ∧
    split_pdf envC3 "doc" = ([.openSource, .closeSource], .success) :=
  ⟨(C3_invalid_parameters { envC3 with pagesRaw := some (-3) } "doc").1
      (-3) rfl (by decide),
   (C3_invalid_parameters envC3 "doc").2.2 1 rfl (by decide) rfl rfl rfl rfl
      rfl rfl⟩

/-- Failing environment for C4: a one-page document, one page per segment,
whose single segment's save raises. -/
def envC4 : SplitEnv :=
  { pagesRaw := some 1, inputPathSet := true, outputDirSet := true,
    validOk := true, validMsg := "", openFails := false, openMsg := "",
    pageCount := 1, confirmUneven := true, firstOutputExists := false,
    confirmOverwrite := true, failAt := some 1, failMsg := "save failed" }

/-- C4 fails on the code: the `except` handler of lines 371-373 returns
without `doc.close()`, so on the exception exit path the source document
handle opened at line 302 is never released.  Here the run opens the source
once, segment 1's save raises, the exception is reported — and the trace
holds no `closeSource` event at all. -/
theorem C4_close_leak_on_exception :
    split_pdf envC4 "doc" =
      ([Event.openSource], .errorException "save failed") ∧
    (split_pdf envC4 "doc").1.count Event.openSource = 1 ∧
    (split_pdf envC4 "doc").1.count Event.closeSource = 0 := by decide

end PDFSplitter
